import Mathlib

/-!
Verification of the falkor Python extraction engine
(`falkor/parsers/python_parser.py`) against its specification.

The Python AST fragment relevant to the parser is embedded shallowly as the
mutual inductives `PExpr`/`PStmt`/`PHandler` below; `PNode` is the untyped
node view used by the breadth-first traversal that models `ast.walk`.
Pieces of the AST that the parser never inspects (decorator lists, keyword
arguments, argument default values, slice expressions, assignment targets)
are outside the modelled fragment.  A function's return annotation is kept
as its source text (the result of `ast.unparse`), since the parser only
ever turns it into a string.
-/

mutual
/-- Python expressions, as used by the parser: bare names, attribute
chains, subscripts (of which only the `value` is inspected), `and`/`or`
chains (`ast.BoolOp`), calls, string constants (docstrings) and other
constants. -/
inductive PExpr where
  | nameE (id : String)
  | attrE (value : PExpr) (attr : String)
  | subscriptE (value : PExpr)
  | boolOpE (values : List PExpr)
  | callE (func : PExpr) (args : List PExpr) (lineno : Nat)
  | constStrE (s : String)
  | constE

/-- Python statements, as used by the parser.  `functionDef` covers both
`ast.FunctionDef` and `ast.AsyncFunctionDef` (distinguished by the
`is_async` flag, exactly the distinction the parser makes). -/
inductive PStmt where
  | functionDef (name : String) (args : List String) (body : List PStmt)
      (returns : Option String) (is_async : Bool) (lineno : Nat) (end_lineno : Option Nat)
  | classDef (name : String) (bases : List PExpr) (body : List PStmt)
      (lineno : Nat) (end_lineno : Option Nat)
  | ifStmt (test : PExpr) (body orelse : List PStmt)
  | whileStmt (test : PExpr) (body orelse : List PStmt)
  | forStmt (iter : PExpr) (body orelse : List PStmt)
  | tryStmt (body : List PStmt) (handlers : List PHandler) (orelse finalbody : List PStmt)
  | withStmt (items : List PExpr) (body : List PStmt)
  | assertStmt (test : PExpr)
  | importStmt (names : List (String × Option String)) (lineno : Nat)
  | importFromStmt (module : Option String) (names : List (String × Option String))
      (level : Nat) (lineno : Nat)
  | exprStmt (e : PExpr)
  | returnStmt (value : Option PExpr)
  | passStmt

/-- An `ast.ExceptHandler` node: the handled type expression and body. -/
inductive PHandler where
  | mk (type : Option PExpr) (body : List PStmt)
end

/-- The untyped view of an AST node (every Python AST node is an `ast.AST`);
this is what `ast.walk` traverses.  `moduleN` is the `ast.Module` root. -/
inductive PNode where
  | moduleN (body : List PStmt)
  | stmtN (s : PStmt)
  | exprN (e : PExpr)
  | handlerN (h : PHandler)

mutual
/-- Size of an expression (for the termination fuel of the walk). -/
def esize : PExpr → Nat
  | .nameE _ => 1
  | .attrE v _ => 1 + esize v
  | .subscriptE v => 1 + esize v
  | .boolOpE vs => 1 + esizeL vs
  | .callE f args _ => 1 + esize f + esizeL args
  | .constStrE _ => 1
  | .constE => 1

def esizeL : List PExpr → Nat
  | [] => 0
  | e :: es => esize e + esizeL es
end

/-- Size of an optional expression. -/
def esizeO : Option PExpr → Nat
  | none => 0
  | some e => esize e

mutual
/-- Size of a statement (for the termination fuel of the walk). -/
def ssize : PStmt → Nat
  | .functionDef _ _ body _ _ _ _ => 1 + ssizeL body
  | .classDef _ bases body _ _ => 1 + esizeL bases + ssizeL body
  | .ifStmt t b o => 1 + esize t + ssizeL b + ssizeL o
  | .whileStmt t b o => 1 + esize t + ssizeL b + ssizeL o
  | .forStmt it b o => 1 + esize it + ssizeL b + ssizeL o
  | .tryStmt b hs o f => 1 + ssizeL b + hsizeL hs + ssizeL o + ssizeL f
  | .withStmt items b => 1 + esizeL items + ssizeL b
  | .assertStmt t => 1 + esize t
  | .importStmt _ _ => 1
  | .importFromStmt _ _ _ _ => 1
  | .exprStmt e => 1 + esize e
  | .returnStmt v => 1 + esizeO v
  | .passStmt => 1

def ssizeL : List PStmt → Nat
  | [] => 0
  | s :: ss => ssize s + ssizeL ss

def hsize : PHandler → Nat
  | .mk t b => 1 + esizeO t + ssizeL b

def hsizeL : List PHandler → Nat
  | [] => 0
  | h :: hs => hsize h + hsizeL hs
end

/-- Size of a node. -/
def nodeSize : PNode → Nat
  | .moduleN body => 1 + ssizeL body
  | .stmtN s => ssize s
  | .exprN e => esize e
  | .handlerN h => hsize h

/-- Children of a node, in the field order of `ast.iter_child_nodes`. -/
def childrenOf : PNode → List PNode
  | .moduleN body => body.map .stmtN
  | .stmtN (.functionDef _ _ body _ _ _ _) => body.map .stmtN
  | .stmtN (.classDef _ bases body _ _) => bases.map .exprN ++ body.map .stmtN
  | .stmtN (.ifStmt t b o) => .exprN t :: (b.map .stmtN ++ o.map .stmtN)
  | .stmtN (.whileStmt t b o) => .exprN t :: (b.map .stmtN ++ o.map .stmtN)
  | .stmtN (.forStmt it b o) => .exprN it :: (b.map .stmtN ++ o.map .stmtN)
  | .stmtN (.tryStmt b hs o f) =>
      b.map .stmtN ++ hs.map .handlerN ++ o.map .stmtN ++ f.map .stmtN
  | .stmtN (.withStmt items b) => items.map .exprN ++ b.map .stmtN
  | .stmtN (.assertStmt t) => [.exprN t]
  | .stmtN (.importStmt _ _) => []
  | .stmtN (.importFromStmt _ _ _ _) => []
  | .stmtN (.exprStmt e) => [.exprN e]
  | .stmtN (.returnStmt v) => (v.map .exprN).toList
  | .stmtN .passStmt => []
  | .exprN (.nameE _) => []
  | .exprN (.attrE v _) => [.exprN v]
  | .exprN (.subscriptE v) => [.exprN v]
  | .exprN (.boolOpE vs) => vs.map .exprN
  | .exprN (.callE f args _) => .exprN f :: args.map .exprN
  | .exprN (.constStrE _) => []
  | .exprN .constE => []
  | .handlerN (.mk t b) => (t.map .exprN).toList ++ b.map .stmtN

/-- The direct children of the `ast.Module` root are tagged as top level;
the tag models Python object identity for the `node in tree.body` test in
`_is_top_level` (on a freshly parsed tree a node is a member of the module
body exactly when it is a direct child of the module). -/
def childTag : PNode → Bool
  | .moduleN _ => true
  | _ => false

/-- Total size of a walk queue. -/
def qsizeT (q : List (PNode × Bool)) : Nat := (q.map (fun p => nodeSize p.1)).sum

/-- Fueled breadth-first traversal, mirroring the queue loop of `ast.walk`:
pop a node, yield it, push its children (tagged per `childTag`). -/
def walkGo : Nat → List (PNode × Bool) → List (PNode × Bool)
  | 0, _ => []
  | _ + 1, [] => []
  | fuel + 1, (n, t) :: rest =>
      (n, t) :: walkGo fuel (rest ++ (childrenOf n).map (fun c => (c, childTag n)))

/-- Breadth-first traversal of a queue of nodes; `qsizeT` fuel always
suffices (proved below), so this is exactly `ast.walk`. -/
def walk (q : List (PNode × Bool)) : List (PNode × Bool) := walkGo (qsizeT q) q

/-- Walk of a whole module: `ast.walk(tree)`. -/
def walkModule (body : List PStmt) : List (PNode × Bool) := walk [(.moduleN body, true)]

/-- Walk of a single (non-module) node: `ast.walk(node)` as used by the
complexity calculator. -/
def walkNode (n : PNode) : List (PNode × Bool) := walk [(n, false)]

/-- Modelled from the spec: the entity node kinds of the data model (§3);
the `falkor.models` module itself is not among the provided sources. -/
inductive NodeType where
  | fileT
  | moduleT
  | classT
  | functionT
deriving DecidableEq, Repr

/-- Modelled from the spec: the relationship kinds (§3). -/
inductive RelationshipType where
  | contains
  | imports
  | calls
  | inherits
  | overrides
deriving DecidableEq, Repr

/-- A value in a relationship's open property bag (string, number, or the
Python `None`). -/
inductive PValue where
  | strV (v : String)
  | natV (v : Nat)
  | noneV
deriving DecidableEq, Repr

/-- Modelled from the spec: an entity record (§3).  The Python subclasses
`FileEntity`/`ModuleEntity`/`ClassEntity`/`FunctionEntity` are flattened
into one record tagged by `node_type`; fields a variant does not carry keep
their defaults. -/
structure Entity where
  node_type : NodeType
  name : String
  qualified_name : String
  file_path : String
  line_start : Nat
  line_end : Nat
  language : Option String := none
  loc : Option Nat := none
  hash : Option String := none
  docstring : Option String := none
  is_abstract : Bool := false
  complexity : Nat := 0
  parameters : List String := []
  return_type : Option String := none
  is_async : Bool := false
  is_external : Bool := false
  package : Option String := none
deriving DecidableEq, Repr

/-- Modelled from the spec: a relationship record (§3). -/
structure Relationship where
  source_id : String
  target_id : String
  rel_type : RelationshipType
  properties : List (String × PValue) := []
deriving DecidableEq, Repr

/-- The data obtained by reading the source file in `_create_file_entity`:
its md5 digest and its count of non-blank lines.  The digest and line count
are abstracted as given inputs (hashing and file IO are outside the
embedding); every claim treats them as opaque values determined by the
file's content. -/
structure FileInfo where
  hash : String
  loc : Nat
deriving DecidableEq, Repr

/-- The mutable instance state of `PythonParser` (`__init__`): the
`file_entity` field set by `extract_entities` and the unused
`entity_map` field. -/
structure ParserState where
  file_entity : Option Entity := none
  entity_map : List (String × String) := []
deriving DecidableEq, Repr

/-- Modelled from the spec: `parse` fails with `ParseError` on malformed
input and otherwise is total (§4.1); the error type lives in the
`falkor.parsers.base` module, which is not among the provided sources. -/
inductive ParseError where
  | parseError (msg : String)
deriving DecidableEq, Repr

/-- Python `x or default` on an optional integer (`node.end_lineno or
node.lineno`): `None` and `0` are both falsy. -/
def pyOrNat (o : Option Nat) (default : Nat) : Nat :=
  match o with
  | none => default
  | some v => if v == 0 then default else v

/-- Python `node.module or ""`: `None` and the empty string are both
falsy, so both collapse to `""`. -/
def pyOrStr (o : Option String) : String :=
  match o with
  | none => ""
  | some s => s

/-- The generic decision-point test of `_calculate_complexity`: membership
in the `isinstance` tuple `(If, While, For, ExceptHandler, With, Assert,
BoolOp)`. -/
def isDecisionNode : PNode → Bool
  | .stmtN (.ifStmt _ _ _) => true
  | .stmtN (.whileStmt _ _ _) => true
  | .stmtN (.forStmt _ _ _) => true
  | .handlerN _ => true
  | .stmtN (.withStmt _ _) => true
  | .stmtN (.assertStmt _) => true
  | .exprN (.boolOpE _) => true
  | _ => false

/-- The per-node increment of `_calculate_complexity`, mirroring its
`if`/`elif` shape: the first branch matches the full `isinstance` tuple
(which already contains `ast.BoolOp`), the `elif isinstance(child, BoolOp)`
branch adds `len(child.values) - 1`. -/
def complexityIncr (n : PNode) : Nat :=
  if isDecisionNode n then 1
  else
    match n with
    | .exprN (.boolOpE vs) => vs.length - 1
    | _ => 0

/-- `_calculate_complexity`: 1 plus the per-node increments over
`ast.walk(node)`. -/
def _calculate_complexity (n : PNode) : Nat :=
  1 + ((walkNode n).map (fun p => complexityIncr p.1)).sum

/-- `ast.get_docstring`: the docstring is the leading string-constant
expression statement of a body.  The `inspect.cleandoc` whitespace
normalization applied by CPython is not modelled (no claim concerns
docstring text). -/
def get_docstring : List PStmt → Option String
  | .exprStmt (.constStrE s) :: _ => some s
  | _ => none

/-- The basename step `Path(file_path).name` of `_create_file_entity`. -/
def pathBasename (file_path : String) : String :=
  (file_path.splitOn "/").getLastD file_path

/-- `_create_file_entity`: the File entity for a parsed file. -/
def _create_file_entity (file_path : String) (info : FileInfo) : Entity :=
  { node_type := .fileT
    name := pathBasename file_path
    qualified_name := file_path
    file_path := file_path
    line_start := 1
    line_end := info.loc
    language := some "python"
    loc := some info.loc
    hash := some info.hash }

/-- `_extract_function`: the Function entity for a `FunctionDef` or
`AsyncFunctionDef` node (the node's fields are passed explicitly).  The
stored return annotation text stands for `ast.unparse(node.returns)`. -/
def _extract_function (name : String) (args : List String) (body : List PStmt)
    (returns : Option String) (is_async : Bool) (lineno : Nat) (end_lineno : Option Nat)
    (file_path : String) (class_name : Option String) : Entity :=
  { node_type := .functionT
    name := name
    qualified_name :=
      match class_name with
      | some c => file_path ++ "::" ++ c ++ "." ++ name
      | none => file_path ++ "::" ++ name
    file_path := file_path
    line_start := lineno
    line_end := pyOrNat end_lineno lineno
    docstring := get_docstring body
    parameters := args
    return_type := returns
    complexity := _calculate_complexity
      (.stmtN (.functionDef name args body returns is_async lineno end_lineno))
    is_async := is_async }

/-- `_extract_class`: the Class entity for a `ClassDef` node (the node's
fields are passed explicitly). -/
def _extract_class (name : String) (bases : List PExpr) (body : List PStmt)
    (lineno : Nat) (end_lineno : Option Nat) (file_path : String) : Entity :=
  { node_type := .classT
    name := name
    qualified_name := file_path ++ "::" ++ name
    file_path := file_path
    line_start := lineno
    line_end := pyOrNat end_lineno lineno
    docstring := get_docstring body
    is_abstract := bases.any fun b =>
      match b with
      | .nameE i => i == "ABC"
      | _ => false
    complexity := _calculate_complexity
      (.stmtN (.classDef name bases body lineno end_lineno)) }

/-- `_get_package_name`: the dotted parent of a module name, or none when
the name has no dot (`module_name.rsplit(".", 1)[0]`). -/
def _get_package_name (module_name : String) : Option String :=
  if module_name.contains '.' then
    some (String.intercalate "." (module_name.splitOn ".").dropLast)
  else
    none

/-- The last dotted component `module_name.split(".")[-1]` used as a
Module entity's simple name. -/
def lastComponent (module_name : String) : String :=
  (module_name.splitOn ".").getLastD module_name

/-- The Module entity built by `_extract_modules` for one imported module
name. -/
def moduleEntity (module_name : String) (file_path : String) (lineno : Nat) : Entity :=
  { node_type := .moduleT
    name := lastComponent module_name
    qualified_name := module_name
    file_path := file_path
    line_start := lineno
    line_end := lineno
    is_external := true
    package := _get_package_name module_name }

/-- Ordered-dict insertion that keeps an existing key untouched
(`if module_name not in modules`). -/
def insertIfAbsent {α : Type} (m : List (String × α)) (k : String) (v : α) :
    List (String × α) :=
  if m.any (fun p => p.1 == k) then m else m ++ [(k, v)]

/-- Ordered-dict insertion with Python `d[k] = v` semantics: an existing
key keeps its position and gets the new value, a new key is appended. -/
def insertOrReplace {α : Type} (m : List (String × α)) (k : String) (v : α) :
    List (String × α) :=
  if m.any (fun p => p.1 == k) then
    m.map (fun p => if p.1 == k then (k, v) else p)
  else
    m ++ [(k, v)]

/-- The per-statement step of `_extract_modules` over one module-level
statement. -/
def moduleStep (file_path : String) (m : List (String × Entity)) :
    PStmt → List (String × Entity)
  | .importStmt names lineno =>
      names.foldl
        (fun m a => insertIfAbsent m a.1 (moduleEntity a.1 file_path lineno)) m
  | .importFromStmt module _ _ lineno =>
      let module_name := pyOrStr module
      if module_name ≠ "" then
        insertIfAbsent m module_name (moduleEntity module_name file_path lineno)
      else
        m
  | _ => m

/-- `_extract_modules`: Module entities from the module-level imports of
`tree.body`, deduplicated by qualified name in an insertion-ordered
dict. -/
def _extract_modules (tree : List PStmt) (file_path : String) : List Entity :=
  (tree.foldl (moduleStep file_path) []).map (fun p => p.2)

/-- The entities contributed by one walked node in `extract_entities`:
every `ClassDef` yields its Class entity plus one Function entity per
`FunctionDef`/`AsyncFunctionDef` directly in its body; a
`FunctionDef`/`AsyncFunctionDef` yields a Function entity only when
`_is_top_level` holds, i.e. when the walk tagged it as a direct child of
the module body. -/
def entitiesForNode (file_path : String) : PNode × Bool → List Entity
  | (.stmtN (.classDef name bases body lineno end_lineno), _) =>
      _extract_class name bases body lineno end_lineno file_path ::
        body.filterMap fun item =>
          match item with
          | .functionDef mname margs mbody mreturns masync mlineno mend =>
              some (_extract_function mname margs mbody mreturns masync mlineno mend
                file_path (some name))
          | _ => none
  | (.stmtN (.functionDef name args body returns is_async lineno end_lineno), top) =>
      if top then
        [_extract_function name args body returns is_async lineno end_lineno
          file_path none]
      else
        []
  | _ => []

/-- `extract_entities`: the File entity, then the class/function entities
in `ast.walk` order, then the Module entities; also records the File
entity into the parser's instance state (`self.file_entity`). -/
def extract_entities (st : ParserState) (tree : List PStmt) (file_path : String)
    (info : FileInfo) : ParserState × List Entity :=
  let file_entity := _create_file_entity file_path info
  let walked := walkModule tree
  ({ st with file_entity := some file_entity },
    file_entity :: (walked.flatMap (entitiesForNode file_path)
      ++ _extract_modules tree file_path))

/-- The attribute-chain decomposition shared by `_get_call_name` and
`_get_base_class_name`: walk an attribute chain to its root and rejoin in
source order; a non-`Name` chain root contributes nothing. -/
def dottedParts : PExpr → List String
  | .attrE v a => dottedParts v ++ [a]
  | .nameE i => [i]
  | _ => []

/-- `CallVisitor._get_call_name` applied to a call's `func` expression:
a bare identifier directly, an attribute chain rejoined with dots,
anything else unresolvable. -/
def _get_call_name : PExpr → Option String
  | .nameE i => some i
  | .attrE v a => some (String.intercalate "." (dottedParts (.attrE v a)))
  | _ => none

/-- The caller qualified name built in `CallVisitor.visit_Call` from the
current class and the function-name stack joined with `.`. -/
def callerName (file_path : String) (cls : Option String) (stack : List String) : String :=
  match cls with
  | some c => file_path ++ "::" ++ c ++ "." ++ String.intercalate "." stack
  | none => file_path ++ "::" ++ String.intercalate "." stack

mutual
/-- The calls `(caller, callee, line)` recorded by `CallVisitor` in one
expression, in visit order: a `Call` whose enclosing function stack is
nonempty and whose callee name is resolvable is recorded, then its
children are visited. -/
def collectCallsE (fp : String) (cls : Option String) (stack : List String) :
    PExpr → List (String × String × Nat)
  | .nameE _ => []
  | .attrE v _ => collectCallsE fp cls stack v
  | .subscriptE v => collectCallsE fp cls stack v
  | .boolOpE vs => collectCallsEL fp cls stack vs
  | .callE f args lineno =>
      (if stack.isEmpty then []
       else
         match _get_call_name f with
         | some callee => [(callerName fp cls stack, callee, lineno)]
         | none => [])
      ++ collectCallsE fp cls stack f ++ collectCallsEL fp cls stack args
  | .constStrE _ => []
  | .constE => []

def collectCallsEL (fp : String) (cls : Option String) (stack : List String) :
    List PExpr → List (String × String × Nat)
  | [] => []
  | e :: es => collectCallsE fp cls stack e ++ collectCallsEL fp cls stack es

def collectCallsEO (fp : String) (cls : Option String) (stack : List String) :
    Option PExpr → List (String × String × Nat)
  | none => []
  | some e => collectCallsE fp cls stack e

/-- The calls recorded by `CallVisitor` in one statement:
`visit_ClassDef` swaps in the class name around its children,
`visit_FunctionDef`/`visit_AsyncFunctionDef` push the function name on the
stack around the function body. -/
def collectCallsS (fp : String) (cls : Option String) (stack : List String) :
    PStmt → List (String × String × Nat)
  | .functionDef name _ body _ _ _ _ => collectCallsSL fp cls (stack ++ [name]) body
  | .classDef name bases body _ _ =>
      collectCallsEL fp (some name) stack bases ++ collectCallsSL fp (some name) stack body
  | .ifStmt t b o =>
      collectCallsE fp cls stack t ++ collectCallsSL fp cls stack b
        ++ collectCallsSL fp cls stack o
  | .whileStmt t b o =>
      collectCallsE fp cls stack t ++ collectCallsSL fp cls stack b
        ++ collectCallsSL fp cls stack o
  | .forStmt it b o =>
      collectCallsE fp cls stack it ++ collectCallsSL fp cls stack b
        ++ collectCallsSL fp cls stack o
  | .tryStmt b hs o f =>
      collectCallsSL fp cls stack b ++ collectCallsHL fp cls stack hs
        ++ collectCallsSL fp cls stack o ++ collectCallsSL fp cls stack f
  | .withStmt items b =>
      collectCallsEL fp cls stack items ++ collectCallsSL fp cls stack b
  | .assertStmt t => collectCallsE fp cls stack t
  | .importStmt _ _ => []
  | .importFromStmt _ _ _ _ => []
  | .exprStmt e => collectCallsE fp cls stack e
  | .returnStmt v => collectCallsEO fp cls stack v
  | .passStmt => []

def collectCallsSL (fp : String) (cls : Option String) (stack : List String) :
    List PStmt → List (String × String × Nat)
  | [] => []
  | s :: ss => collectCallsS fp cls stack s ++ collectCallsSL fp cls stack ss

def collectCallsH (fp : String) (cls : Option String) (stack : List String) :
    PHandler → List (String × String × Nat)
  | .mk t b => collectCallsEO fp cls stack t ++ collectCallsSL fp cls stack b

def collectCallsHL (fp : String) (cls : Option String) (stack : List String) :
    List PHandler → List (String × String × Nat)
  | [] => []
  | h :: hs => collectCallsH fp cls stack h ++ collectCallsHL fp cls stack hs
end

/-- The calls recorded by running `CallVisitor` over the whole module:
initially no current class and an empty function stack. -/
def collectCalls (tree : List PStmt) (fp : String) : List (String × String × Nat) :=
  collectCallsSL fp none [] tree

/-- The entity lookup dict of `extract_relationships`
(`{e.qualified_name: e for e in entities}`, Python dict semantics). -/
def buildEntityMap (entities : List Entity) : List (String × Entity) :=
  entities.foldl (fun m e => insertOrReplace m e.qualified_name e) []

/-- The callee-binding scan of `_extract_calls`: the first entry of the
entity map whose entity simple name equals the callee text or whose
qualified name ends with `::<callee>`; unresolved callees bind to the raw
callee text. -/
def resolveCallee (entity_map : List (String × Entity)) (callee : String) : String :=
  match entity_map.find? (fun p => p.2.name == callee || p.1.endsWith ("::" ++ callee)) with
  | some p => p.1
  | none => callee

/-- `_extract_calls`: one CALLS relationship per recorded call. -/
def _extract_calls (tree : List PStmt) (fp : String)
    (entity_map : List (String × Entity)) : List Relationship :=
  (collectCalls tree fp).map fun c =>
    { source_id := c.1
      target_id := resolveCallee entity_map c.2.1
      rel_type := .calls
      properties := [("line", .natV c.2.2), ("call_name", .strV c.2.1)] }

/-- `_get_base_class_name`: a base-class expression reduced to a name
(identifier, dotted chain, or the origin of a subscripted generic). -/
def _get_base_class_name : PExpr → Option String
  | .nameE i => some i
  | .attrE v a => some (String.intercalate "." (dottedParts (.attrE v a)))
  | .subscriptE v => _get_base_class_name v
  | _ => none

/-- A `ClassDef` node's fields, as collected by the walks of
`_extract_inheritance` and `_extract_overrides`. -/
structure ClassRec where
  name : String
  bases : List PExpr
  body : List PStmt
  lineno : Nat
  end_lineno : Option Nat

/-- The `ClassDef` nodes of a walk, in walk order. -/
def classDefsOfWalk (w : List (PNode × Bool)) : List ClassRec :=
  w.filterMap fun p =>
    match p.1 with
    | .stmtN (.classDef name bases body lineno end_lineno) =>
        some ⟨name, bases, body, lineno, end_lineno⟩
    | _ => none

/-- `_extract_inheritance`: one INHERITS relationship per resolvable base
of every walked class; a base naming a class defined in this file gets the
file-qualified target. -/
def _extract_inheritance (tree : List PStmt) (fp : String) : List Relationship :=
  let local_classes := (classDefsOfWalk (walkModule tree)).map (fun c => c.name)
  (classDefsOfWalk (walkModule tree)).flatMap fun c =>
    c.bases.filterMap fun base =>
      match _get_base_class_name base with
      | none => none
      | some base_name =>
          some { source_id := fp ++ "::" ++ c.name
                 target_id :=
                   if local_classes.contains base_name then fp ++ "::" ++ base_name
                   else base_name
                 rel_type := .inherits
                 properties := [("base_class", .strV base_name), ("line", .natV c.lineno)] }

/-- The method dict of one class in `_extract_overrides`
(`method_name -> qualified_name` over the direct body items). -/
def methodsOf (fp cname : String) (body : List PStmt) : List (String × String) :=
  body.foldl
    (fun m item =>
      match item with
      | .functionDef mn _ _ _ _ _ _ =>
          insertOrReplace m mn (fp ++ "::" ++ cname ++ "." ++ mn)
      | _ => m)
    []

/-- The `class_info` dict of `_extract_overrides`
(`class_name -> (class_node, methods)`, Python dict semantics over the
walked classes). -/
def classInfo (tree : List PStmt) (fp : String) :
    List (String × (ClassRec × List (String × String))) :=
  (classDefsOfWalk (walkModule tree)).foldl
    (fun m c => insertOrReplace m c.name (c, methodsOf fp c.name c.body)) []

/-- `_extract_overrides`: for every class whose base resolves to a class
in the same file, one OVERRIDES relationship per shared method name,
skipping names that both start and end with a double underscore.  The
`entity_map` parameter is accepted and unused, as in the source. -/
def _extract_overrides (tree : List PStmt) (fp : String)
    (entity_map : List (String × Entity)) : List Relationship :=
  let _ := entity_map
  (classInfo tree fp).flatMap fun ci =>
    ci.2.1.bases.flatMap fun base =>
      match _get_base_class_name base with
      | none => []
      | some base_name =>
          match (classInfo tree fp).find? (fun p => p.1 == base_name) with
          | none => []
          | some pinfo =>
              ci.2.2.flatMap fun cm =>
                match pinfo.2.2.find? (fun p => p.1 == cm.1) with
                | none => []
                | some pm =>
                    if cm.1.startsWith "__" && cm.1.endsWith "__" then []
                    else
                      [{ source_id := cm.2
                         target_id := pm.2
                         rel_type := .overrides
                         properties := [("method_name", .strV cm.1),
                           ("child_class", .strV ci.1),
                           ("parent_class", .strV base_name)] }]

/-- A Python optional string as a property value. -/
def optV : Option String → PValue
  | some s => .strV s
  | none => .noneV

/-- The IMPORTS relationships of one module-level statement in
`extract_relationships`. -/
def importRelsOf (fp : String) : PStmt → List Relationship
  | .importStmt names lineno =>
      names.map fun a =>
        { source_id := fp
          target_id := a.1
          rel_type := .imports
          properties := [("alias", optV a.2), ("line", .natV lineno)] }
  | .importFromStmt module names level lineno =>
      let module_name := pyOrStr module
      names.map fun a =>
        { source_id := fp
          target_id :=
            if module_name ≠ "" then module_name ++ "." ++ a.1 else a.1
          rel_type := .imports
          properties := [("alias", optV a.2), ("from_module", .strV module_name),
            ("imported_name", .strV a.1), ("relative_level", .natV level),
            ("line", .natV lineno)] }
  | _ => []

/-- `extract_relationships`: module-level IMPORTS, then CALLS, INHERITS,
OVERRIDES, and one CONTAINS from the File to every non-File entity. -/
def extract_relationships (tree : List PStmt) (fp : String)
    (entities : List Entity) : List Relationship :=
  let entity_map := buildEntityMap entities
  tree.flatMap (importRelsOf fp)
    ++ _extract_calls tree fp entity_map
    ++ _extract_inheritance tree fp
    ++ _extract_overrides tree fp entity_map
    ++ entities.filterMap fun e =>
        if e.node_type ≠ NodeType.fileT then
          some { source_id := fp, target_id := e.qualified_name, rel_type := .contains }
        else
          none

/-- The per-file pipeline over an already attempted parse: a parse
failure aborts with the `ParseError` before any extraction; a parsed tree
goes through `extract_entities` and `extract_relationships`. -/
def runPipeline (parsed : Except ParseError (List PStmt)) (st : ParserState)
    (file_path : String) (info : FileInfo) :
    Except ParseError (List Entity × List Relationship) :=
  match parsed with
  | .error e => .error e
  | .ok tree =>
      let r := extract_entities st tree file_path info
      .ok (r.2, extract_relationships tree file_path r.2)

/-- Example A of the spec: `"m.py"` with `class A: def f(self): pass` and
`class B(A): def f(self): pass`. -/
def exampleClassTree : List PStmt :=
  [.classDef "A" [] [.functionDef "f" ["self"] [.passStmt] none false 2 (some 2)] 1 (some 2),
   .classDef "B" [.nameE "A"] [.functionDef "f" ["self"] [.passStmt] none false 4 (some 4)]
     3 (some 4)]

/-- A function whose body is a single `if` on an `and`/`or` chain of `k`
operands and nothing else. -/
def boolChainFun (k : Nat) : PStmt :=
  .functionDef "f" []
    [.ifStmt (.boolOpE (List.replicate k (.nameE "x"))) [.passStmt] []]
    none false 1 (some 3)

/-- Example D of the spec: a function with two sequential `if` statements
and no boolean operators. -/
def twoIfFun : PStmt :=
  .functionDef "f" []
    [.ifStmt (.nameE "a") [.passStmt] [], .ifStmt (.nameE "b") [.passStmt] []]
    none false 1 (some 5)

/-- A function whose body is a single bare boolean-operator expression
statement (`a and b`) — a boolean operator with no `if`/`while`/`for`
around it. -/
def bareBoolFun : PStmt :=
  .functionDef "g" [] [.exprStmt (.boolOpE [.nameE "a", .nameE "b"])]
    none false 1 (some 2)

/-- A module whose only statement is `def f():` containing a nested
function of the given name with a `pass` body. -/
def nestedFunTree (g : String) : List PStmt :=
  [.functionDef "f" [] [.functionDef g [] [.passStmt] none false 2 (some 3)]
    none false 1 (some 3)]

/-- A module with `def f():` containing `def g():` whose body calls
`h()`. -/
def nestedCallTree : List PStmt :=
  [.functionDef "f" []
    [.functionDef "g" [] [.exprStmt (.callE (.nameE "h") [] 3)] none false 2 (some 3)]
    none false 1 (some 3)]

/-- Example C of the spec: `from . import sibling` at `"p.py"`. -/
def relImportTree : List PStmt :=
  [.importFromStmt none [("sibling", none)] 1 1]

/-- Decision-point test as claimed by the spec sentence listing the
decision points as exactly `if`, `while`, `for`, exception handler,
`with`, `assert` — the claim-side definition, to be compared with the
source-side `isDecisionNode` (which also matches `ast.BoolOp`). -/
def claimDecisionNode : PNode → Bool
  | .stmtN (.ifStmt _ _ _) => true
  | .stmtN (.whileStmt _ _ _) => true
  | .stmtN (.forStmt _ _ _) => true
  | .handlerN _ => true
  | .stmtN (.withStmt _ _) => true
  | .stmtN (.assertStmt _) => true
  | _ => false

/-- Sum of complexity increments over the walk of a queue. -/
def incrSum (q : List (PNode × Bool)) : Nat :=
  ((walk q).map (fun p => complexityIncr p.1)).sum

theorem esize_pos (e : PExpr) : 0 < esize e := by
  cases e <;> simp [esize]

theorem ssize_pos (s : PStmt) : 0 < ssize s := by
  cases s <;> simp [ssize]

theorem hsize_pos (h : PHandler) : 0 < hsize h := by
  cases h; simp [hsize]

theorem nodeSize_pos (n : PNode) : 0 < nodeSize n := by
  cases n with
  | moduleN body => simp [nodeSize]
  | stmtN s => exact ssize_pos s
  | exprN e => exact esize_pos e
  | handlerN h => exact hsize_pos h

theorem sum_stmtN (l : List PStmt) :
    (l.map (nodeSize ∘ PNode.stmtN)).sum = ssizeL l := by
  induction l with
  | nil => rfl
  | cons s ss ih => simp [ssizeL, nodeSize] at ih ⊢; omega

theorem sum_exprN (l : List PExpr) :
    (l.map (nodeSize ∘ PNode.exprN)).sum = esizeL l := by
  induction l with
  | nil => rfl
  | cons e es ih => simp [esizeL, nodeSize] at ih ⊢; omega

theorem sum_handlerN (l : List PHandler) :
    (l.map (nodeSize ∘ PNode.handlerN)).sum = hsizeL l := by
  induction l with
  | nil => rfl
  | cons h hs ih => simp [hsizeL, nodeSize] at ih ⊢; omega

theorem sum_exprO (v : Option PExpr) :
    ((v.map PNode.exprN).toList.map nodeSize).sum = esizeO v := by
  cases v <;> simp [esizeO, nodeSize]

theorem qsizeT_tagged (l : List PNode) (t : Bool) :
    qsizeT (l.map (fun c => (c, t))) = (l.map nodeSize).sum := by
  induction l with
  | nil => rfl
  | cons n ns ih => simp [qsizeT] at ih ⊢; omega

theorem qsizeT_append (a b : List (PNode × Bool)) :
    qsizeT (a ++ b) = qsizeT a + qsizeT b := by
  simp [qsizeT]

theorem children_size_lt (n : PNode) : ((childrenOf n).map nodeSize).sum < nodeSize n := by
  cases n with
  | moduleN body =>
      simp [childrenOf, nodeSize, List.map_map, sum_stmtN]
  | stmtN s =>
      cases s <;>
        simp [childrenOf, nodeSize, ssize, List.map_append, List.map_map,
          sum_stmtN, sum_exprN, sum_handlerN, sum_exprO] <;>
        omega
  | exprN e =>
      cases e <;>
        simp [childrenOf, nodeSize, esize, List.map_append, List.map_map,
          sum_stmtN, sum_exprN] <;>
        omega
  | handlerN h =>
      cases h with
      | mk t b =>
          simp [childrenOf, nodeSize, hsize, List.map_append, List.map_map,
            sum_stmtN, sum_exprO]

theorem qsizeT_cons (n : PNode) (t : Bool) (rest : List (PNode × Bool)) :
    qsizeT ((n, t) :: rest) = nodeSize n + qsizeT rest := by
  simp [qsizeT]

theorem qsizeT_eq_zero (q : List (PNode × Bool)) (h : qsizeT q = 0) : q = [] := by
  cases q with
  | nil => rfl
  | cons p rest =>
      rw [show p = (p.1, p.2) from rfl, qsizeT_cons] at h
      have := nodeSize_pos p.1
      omega

theorem walkGo_congr (f : Nat) :
    ∀ (g : Nat) (q : List (PNode × Bool)), qsizeT q ≤ f → qsizeT q ≤ g →
      walkGo f q = walkGo g q := by
  induction f with
  | zero =>
      intro g q hf _
      have : q = [] := qsizeT_eq_zero q (Nat.le_zero.mp hf)
      subst this
      cases g <;> rfl
  | succ f ih =>
      intro g q hf hg
      cases q with
      | nil => cases g <;> rfl
      | cons p rest =>
          obtain ⟨n, t⟩ := p
          have hpos := nodeSize_pos n
          rw [qsizeT_cons] at hf hg
          obtain ⟨g', rfl⟩ : ∃ g', g = g' + 1 := ⟨g - 1, by omega⟩
          show (n, t) :: walkGo f (rest ++ (childrenOf n).map (fun c => (c, childTag n)))
             = (n, t) :: walkGo g' (rest ++ (childrenOf n).map (fun c => (c, childTag n)))
          have hsz : qsizeT (rest ++ (childrenOf n).map (fun c => (c, childTag n)))
              ≤ qsizeT rest + nodeSize n - 1 := by
            rw [qsizeT_append, qsizeT_tagged]
            have := children_size_lt n
            omega
          rw [ih g' _ (by omega) (by omega)]

theorem walk_nil : walk [] = [] := rfl

theorem walk_cons (n : PNode) (t : Bool) (rest : List (PNode × Bool)) :
    walk ((n, t) :: rest)
      = (n, t) :: walk (rest ++ (childrenOf n).map (fun c => (c, childTag n))) := by
  unfold walk
  have hpos := nodeSize_pos n
  have h1 : qsizeT ((n, t) :: rest) = nodeSize n + qsizeT rest := qsizeT_cons n t rest
  obtain ⟨f, hf⟩ : ∃ f, qsizeT ((n, t) :: rest) = f + 1 := ⟨qsizeT ((n, t) :: rest) - 1, by omega⟩
  rw [hf]
  show (n, t) :: walkGo f (rest ++ (childrenOf n).map (fun c => (c, childTag n))) = _
  congr 1
  apply walkGo_congr
  · rw [qsizeT_append, qsizeT_tagged]
    have := children_size_lt n
    omega
  · exact Nat.le_refl _

theorem incrSum_nil : incrSum [] = 0 := rfl

theorem incrSum_cons (n : PNode) (t : Bool) (rest : List (PNode × Bool)) :
    incrSum ((n, t) :: rest)
      = complexityIncr n
        + incrSum (rest ++ (childrenOf n).map (fun c => (c, childTag n))) := by
  unfold incrSum
  rw [walk_cons]
  simp

theorem _calculate_complexity_eq_incrSum (n : PNode) :
    _calculate_complexity n = 1 + incrSum [(n, false)] := rfl

theorem complexityIncr_eq_indicator (n : PNode) :
    complexityIncr n = if isDecisionNode n then 1 else 0 := by
  unfold complexityIncr
  by_cases h : isDecisionNode n
  · simp [h]
  · simp only [h, if_false]
    cases n with
    | exprN e => cases e <;> simp_all [isDecisionNode]
    | moduleN body => rfl
    | stmtN s => cases s <;> simp_all [isDecisionNode]
    | handlerN h => simp [isDecisionNode] at h

theorem sum_map_indicator {α : Type} (l : List α) (p : α → Bool) :
    (l.map (fun x => if p x then 1 else 0)).sum = (l.filter p).length := by
  induction l with
  | nil => rfl
  | cons a l ih =>
      by_cases h : p a <;> simp [h, ih] <;> omega

theorem incrSum_replicate_name (k : Nat) (x : String) (t : Bool) :
    incrSum (List.replicate k (PNode.exprN (.nameE x), t)) = 0 := by
  induction k with
  | zero => rfl
  | succ k ih =>
      rw [List.replicate_succ, incrSum_cons]
      simp [childrenOf, complexityIncr, isDecisionNode, ih]

/-- C1 (counterexample): for the function `def f(): if x and x: pass` —
exactly one `if` over a boolean-operator chain of 2 operands and no other
decision points — the computed complexity is 3, not the claimed
`1 + 1 + 1 + (2 - 1) = 4`. -/
theorem boolop_no_extra_increment_cex :
    _calculate_complexity (.stmtN (boolChainFun 2)) = 3 ∧ (3 : Nat) ≠ 1 + 1 + 1 + (2 - 1) := by
  constructor
  · decide
  · decide

/-- C1 (amended): a boolean-operator chain contributes only the generic
decision-point increment of 1; the explicit `elif` increment of
`(operandCount - 1)` is unreachable because `ast.BoolOp` is already in the
generic `isinstance` tuple, so every function whose body is exactly one
`if` over a boolean-operator chain of `k ≥ 2` operands has complexity
`1 + 1 + 1 = 3`, independent of `k`. -/
theorem boolop_single_increment (k : Nat) (hk : 2 ≤ k) :
    _calculate_complexity (.stmtN (boolChainFun k)) = 3 := by
  rw [_calculate_complexity_eq_incrSum]
  unfold boolChainFun
  rw [incrSum_cons]
  simp only [childrenOf, childTag, List.map_cons, List.map_nil, List.nil_append,
    List.cons_append]
  rw [incrSum_cons]
  simp only [childrenOf, childTag, List.map_append, List.map_cons, List.map_nil,
    List.map_replicate, List.nil_append, List.cons_append]
  rw [incrSum_cons]
  simp only [childrenOf, childTag, List.map_replicate, List.nil_append,
    List.cons_append, List.append_nil]
  rw [incrSum_cons]
  simp only [childrenOf, childTag, List.map_nil, List.nil_append, List.append_nil]
  rw [incrSum_replicate_name]
  simp [complexityIncr, isDecisionNode]

/-- C1 (witness for the amended theorem at `k = 2`). -/
theorem boolop_single_increment_witness :
    2 ≤ 2 ∧ _calculate_complexity (.stmtN (boolChainFun 2)) = 3 :=
  ⟨by decide, boolop_single_increment 2 (by decide)⟩

/-- C2 (counterexample): the function `def g(): a and b` contains none of
the claimed decision points (`if`, `while`, `for`, exception handler,
`with`, `assert`), so the claimed formula yields 1, but the code computes
complexity 2 — the boolean operator is itself counted as a decision
point. -/
theorem decision_points_exactly_cex :
    _calculate_complexity (.stmtN bareBoolFun) = 2
    ∧ 1 + ((walkNode (.stmtN bareBoolFun)).filter (fun p => claimDecisionNode p.1)).length = 1
    ∧ (2 : Nat) ≠ 1 := by
  refine ⟨by decide, by decide, by decide⟩

/-- C2 (amended): complexity equals 1 plus one increment per decision
point in the full subtree walk, where the decision points are `if`,
`while`, `for`, exception handler, `with`, `assert` *and* boolean-operator
expressions (the full `isinstance` tuple of the source); in particular the
two-sequential-`if` function has complexity exactly 3. -/
theorem complexity_counts_decision_points :
    (∀ n : PNode, _calculate_complexity n
      = 1 + ((walkNode n).filter (fun p => isDecisionNode p.1)).length)
    ∧ _calculate_complexity (.stmtN twoIfFun) = 3 := by
  constructor
  · intro n
    unfold _calculate_complexity
    congr 1
    have h : ∀ p : PNode × Bool, complexityIncr p.1
        = if (fun q : PNode × Bool => isDecisionNode q.1) p then 1 else 0 := by
      intro p
      exact complexityIncr_eq_indicator p.1
    calc ((walkNode n).map (fun p => complexityIncr p.1)).sum
        = ((walkNode n).map
            (fun p => if (fun q : PNode × Bool => isDecisionNode q.1) p then 1 else 0)).sum := by
          rw [List.map_congr_left (fun p _ => h p)]
      _ = ((walkNode n).filter (fun p => isDecisionNode p.1)).length :=
          sum_map_indicator _ _
  · decide

/-- C10: a Class entity's `is_abstract` flag is set iff some base-class
expression is the bare identifier `ABC`; in particular a dotted base such
as `abc.ABC` never sets it. -/
theorem is_abstract_iff_bare_abc (name : String) (bases : List PExpr) (body : List PStmt)
    (lineno : Nat) (end_lineno : Option Nat) (fp : String) :
    (((_extract_class name bases body lineno end_lineno fp).is_abstract = true)
      ↔ ∃ b ∈ bases, b = PExpr.nameE "ABC")
    ∧ (_extract_class name [PExpr.attrE (.nameE "abc") "ABC"] body lineno end_lineno
        fp).is_abstract = false := by
  constructor
  · simp only [_extract_class, List.any_eq_true]
    constructor
    · rintro ⟨b, hb, h⟩
      refine ⟨b, hb, ?_⟩
      cases b <;> simp_all
    · rintro ⟨b, hb, rfl⟩
      exact ⟨.nameE "ABC", hb, by simp⟩
  · simp [_extract_class]

/-- C5: extraction is deterministic and stateless — the entity list and
relationship list do not depend on the parser's instance state, so a
second run on the same tree, file path and file content (including the
run that reuses the state produced by the first) yields the same
entity and relationship sets. -/
theorem extraction_idempotent (st st2 : ParserState) (tree : List PStmt)
    (fp : String) (info : FileInfo) :
    (extract_entities st tree fp info).2
        = (extract_entities (extract_entities st tree fp info).1 tree fp info).2
    ∧ extract_relationships tree fp (extract_entities st tree fp info).2
        = extract_relationships tree fp
            (extract_entities (extract_entities st tree fp info).1 tree fp info).2
    ∧ (extract_entities st2 tree fp info).2 = (extract_entities st tree fp info).2 := by
  exact ⟨rfl, rfl, rfl⟩

/-- C9: on every parsed tree the extraction pipeline returns a result
(never an error — the embedded extraction functions are total, matching
the source, whose partial operations are all guarded); a `ParseError`
arises only from a failed parse, before any entity or relationship is
produced. -/
theorem extraction_never_raises (tree : List PStmt) (st : ParserState)
    (fp : String) (info : FileInfo) :
    (∃ es rels, runPipeline (.ok tree) st fp info = .ok (es, rels))
    ∧ ∀ msg, runPipeline (.error (.parseError msg)) st fp info
        = .error (.parseError msg) := by
  exact ⟨⟨_, _, rfl⟩, fun _ => rfl⟩

/-- C4 (counterexample): in `p.py` containing `def f():` with a nested
`def g(): pass`, no entity with qualified name `p.py::g` is emitted and
no CONTAINS relationship targets `p.py::g` — the nested function is not
extracted at all. -/
theorem nested_function_cex :
    (¬ ∃ e ∈ (extract_entities ⟨none, []⟩ (nestedFunTree "g") "p.py" ⟨"d41d8", 3⟩).2,
        e.qualified_name = "p.py::g")
    ∧ ¬ ∃ r ∈ extract_relationships (nestedFunTree "g") "p.py"
          (extract_entities ⟨none, []⟩ (nestedFunTree "g") "p.py" ⟨"d41d8", 3⟩).2,
        r.rel_type = RelationshipType.contains ∧ r.target_id = "p.py::g" := by
  refine ⟨by decide, by decide⟩

/-- C4 (amended): a nested (closure) function is not emitted as an entity
at all — whatever its name, the module `def f():` with nested
`def <g>(): pass` yields exactly the File entity and the entity of the
top-level `f`, and exactly one CONTAINS relationship, targeting
`p.py::f`. -/
theorem nested_function_not_emitted (g : String) (st : ParserState) (info : FileInfo) :
    ((extract_entities st (nestedFunTree g) "p.py" info).2.map (fun e => e.qualified_name))
      = ["p.py", "p.py::f"]
    ∧ ((extract_relationships (nestedFunTree g) "p.py"
          (extract_entities st (nestedFunTree g) "p.py" info).2).filterMap
        (fun r => if r.rel_type == RelationshipType.contains then some r.target_id
                  else none))
      = ["p.py::f"] := by
  have hwalk : walkModule
      [PStmt.functionDef "f" [] [.functionDef g [] [.passStmt] none false 2 (some 3)]
        none false 1 (some 3)] =
      [(.moduleN [.functionDef "f" [] [.functionDef g [] [.passStmt] none false 2 (some 3)]
          none false 1 (some 3)], true),
       (.stmtN (.functionDef "f" []
          [.functionDef g [] [.passStmt] none false 2 (some 3)] none false 1 (some 3)), true),
       (.stmtN (.functionDef g [] [.passStmt] none false 2 (some 3)), false),
       (.stmtN .passStmt, false)] := by
    simp only [walkModule]
    simp only [walk_cons, walk_nil, childrenOf, childTag, List.map_cons, List.map_nil,
      List.nil_append, List.cons_append, List.append_nil]
  constructor
  · simp only [extract_entities, nestedFunTree, hwalk]
    simp [entitiesForNode, _extract_modules, moduleStep,
      _create_file_entity, _extract_function, pathBasename]
  · simp only [extract_relationships, extract_entities, nestedFunTree, hwalk]
    simp [entitiesForNode, _extract_modules, moduleStep,
      _create_file_entity, _extract_function, pathBasename, _extract_calls,
      collectCalls, collectCallsSL, collectCallsS, _extract_inheritance,
      classDefsOfWalk, _extract_overrides, classInfo, importRelsOf, hwalk]

/-- C6: a pure relative import (`from . import N1, N2, ...`, empty source
module, any relative level `L ≥ 1`) creates no Module entity — the
entity list is exactly the File entity — yet emits exactly one IMPORTS
relationship per imported name, with the bare name as target and the
relative level recorded. -/
theorem pure_relative_import (names : List (String × Option String)) (L lineno : Nat)
    (fp : String) (st : ParserState) (info : FileInfo) (hL : 1 ≤ L) :
    (extract_entities st [PStmt.importFromStmt none names L lineno] fp info).2
      = [_create_file_entity fp info]
    ∧ extract_relationships [PStmt.importFromStmt none names L lineno] fp
        (extract_entities st [PStmt.importFromStmt none names L lineno] fp info).2
      = names.map (fun a =>
          { source_id := fp
            target_id := a.1
            rel_type := RelationshipType.imports
            properties := [("alias", optV a.2), ("from_module", PValue.strV ""),
              ("imported_name", PValue.strV a.1), ("relative_level", PValue.natV L),
              ("line", PValue.natV lineno)] }) := by
  have hwalk : walkModule [PStmt.importFromStmt none names L lineno] =
      [(.moduleN [.importFromStmt none names L lineno], true),
       (.stmtN (.importFromStmt none names L lineno), true)] := by
    simp only [walkModule]
    simp only [walk_cons, walk_nil, childrenOf, childTag, List.map_cons, List.map_nil,
      List.nil_append, List.cons_append, List.append_nil]
  have hents : (extract_entities st [PStmt.importFromStmt none names L lineno] fp info).2
      = [_create_file_entity fp info] := by
    simp only [extract_entities, hwalk]
    simp [entitiesForNode, _extract_modules, moduleStep, pyOrStr]
  refine ⟨hents, ?_⟩
  rw [hents]
  simp only [extract_relationships]
  simp [importRelsOf, pyOrStr, _extract_calls, collectCalls, collectCallsSL,
    collectCallsS, _extract_inheritance, classDefsOfWalk, hwalk, _extract_overrides,
    classInfo, _create_file_entity]

/-- C6 (witness): `from . import sibling` at `"p.py"` yields no Module
entity and exactly one IMPORTS relationship with target `sibling` and
`relative_level = 1`. -/
theorem pure_relative_import_witness :
    1 ≤ 1
    ∧ (extract_entities ⟨none, []⟩ [PStmt.importFromStmt none [("sibling", none)] 1 1]
        "p.py" ⟨"d41d8", 1⟩).2
      = [_create_file_entity "p.py" ⟨"d41d8", 1⟩]
    ∧ extract_relationships [PStmt.importFromStmt none [("sibling", none)] 1 1] "p.py"
        (extract_entities ⟨none, []⟩ [PStmt.importFromStmt none [("sibling", none)] 1 1]
          "p.py" ⟨"d41d8", 1⟩).2
      = [("sibling", (none : Option String))].map (fun a =>
          { source_id := "p.py"
            target_id := a.1
            rel_type := RelationshipType.imports
            properties := [("alias", optV a.2), ("from_module", PValue.strV ""),
              ("imported_name", PValue.strV a.1), ("relative_level", PValue.natV 1),
              ("line", PValue.natV 1)] }) :=
  ⟨by decide,
   pure_relative_import [("sibling", none)] 1 1 "p.py" ⟨none, []⟩ ⟨"d41d8", 1⟩ (by decide)⟩

/-- C3 (counterexample): in `p.py` with `def f():` containing
`def g():` that calls `h()`, a CALLS relationship is emitted whose
`source_id` is `p.py::f.g` (the dotted function stack), and no entity of
that parse has this qualified name. -/
theorem calls_source_unresolved_cex :
    ∃ r ∈ extract_relationships nestedCallTree "p.py"
        (extract_entities ⟨none, []⟩ nestedCallTree "p.py" ⟨"d41d8", 3⟩).2,
      r.rel_type = RelationshipType.calls ∧ r.source_id = "p.py::f.g"
      ∧ ∀ e ∈ (extract_entities ⟨none, []⟩ nestedCallTree "p.py" ⟨"d41d8", 3⟩).2,
          e.qualified_name ≠ r.source_id := by
  decide

theorem importRelsOf_mem (fp : String) (s : PStmt) (r : Relationship)
    (hr : r ∈ importRelsOf fp s) :
    r.source_id = fp ∧ r.rel_type = RelationshipType.imports := by
  cases s <;>
    first
    | (simp only [importRelsOf, List.mem_map] at hr
       obtain ⟨a, _, rfl⟩ := hr
       exact ⟨rfl, rfl⟩)
    | simp [importRelsOf] at hr

theorem calls_rel_type (tree : List PStmt) (fp : String)
    (em : List (String × Entity)) (r : Relationship)
    (hr : r ∈ _extract_calls tree fp em) : r.rel_type = RelationshipType.calls := by
  simp only [_extract_calls, List.mem_map] at hr
  obtain ⟨c, _, rfl⟩ := hr
  rfl

theorem inherits_rel (tree : List PStmt) (fp : String) (r : Relationship)
    (hr : r ∈ _extract_inheritance tree fp) :
    r.rel_type = RelationshipType.inherits
    ∧ ∃ c ∈ classDefsOfWalk (walkModule tree), r.source_id = fp ++ "::" ++ c.name := by
  simp only [_extract_inheritance, List.mem_flatMap] at hr
  obtain ⟨c, hc, hmem⟩ := hr
  simp only [List.mem_filterMap] at hmem
  obtain ⟨base, _, heq⟩ := hmem
  cases hbase : _get_base_class_name base with
  | none => rw [hbase] at heq; exact absurd heq (by simp)
  | some bn =>
      rw [hbase] at heq
      simp only [Option.some.injEq] at heq
      subst heq
      exact ⟨rfl, c, hc, rfl⟩

theorem overrides_rel (tree : List PStmt) (fp : String)
    (em : List (String × Entity)) (r : Relationship)
    (hr : r ∈ _extract_overrides tree fp em) :
    r.rel_type = RelationshipType.overrides
    ∧ ∃ ci ∈ classInfo tree fp, ∃ cm ∈ ci.2.2, r.source_id = cm.2 := by
  simp only [_extract_overrides, List.mem_flatMap] at hr
  obtain ⟨ci, hci, h1⟩ := hr
  obtain ⟨base, _, h2⟩ := h1
  split at h2
  · simp at h2
  · split at h2
    · simp at h2
    · simp only [List.mem_flatMap] at h2
      obtain ⟨cm, hcm, h3⟩ := h2
      split at h3
      · simp at h3
      · split at h3
        · simp at h3
        · simp only [List.mem_singleton] at h3
          subst h3
          exact ⟨rfl, ci, hci, cm, hcm, rfl⟩

theorem contains_rel (fp : String) (entities : List Entity) (r : Relationship)
    (hr : r ∈ entities.filterMap fun e =>
      if e.node_type ≠ NodeType.fileT then
        some { source_id := fp, target_id := e.qualified_name,
               rel_type := RelationshipType.contains, properties := [] }
      else none) :
    r.source_id = fp ∧ r.rel_type = RelationshipType.contains := by
  simp only [List.mem_filterMap] at hr
  obtain ⟨e, _, heq⟩ := hr
  by_cases h : e.node_type ≠ NodeType.fileT
  · rw [if_pos h] at heq
    simp only [Option.some.injEq] at heq
    subst heq
    exact ⟨rfl, rfl⟩
  · rw [if_neg h] at heq
    exact absurd heq (by simp)

/-- C7: the CALLS relationships of a parse are exactly one relationship
per call recorded during the walk, whose source is the caller, and whose
target is bound by scanning the entity map: the first entry whose entity
simple name equals the callee text or whose qualified name ends with
`::<calleeText>` wins; with no match the raw callee text is the target. -/
theorem calls_binding_policy (tree : List PStmt) (fp : String) (entities : List Entity) :
    (extract_relationships tree fp entities).filter
      (fun r => r.rel_type == RelationshipType.calls)
    = (collectCalls tree fp).map (fun c =>
        { source_id := c.1
          target_id :=
            match (buildEntityMap entities).find?
                (fun p => p.2.name == c.2.1 || p.1.endsWith ("::" ++ c.2.1)) with
            | some p => p.1
            | none => c.2.1
          rel_type := RelationshipType.calls
          properties := [("line", PValue.natV c.2.2), ("call_name", PValue.strV c.2.1)] }) := by
  simp only [extract_relationships]
  rw [List.filter_append, List.filter_append, List.filter_append, List.filter_append]
  have himp : (tree.flatMap (importRelsOf fp)).filter
      (fun r => r.rel_type == RelationshipType.calls) = [] := by
    apply List.filter_eq_nil_iff.mpr
    intro r hr
    obtain ⟨s, _, hmem⟩ := List.mem_flatMap.mp hr
    have := (importRelsOf_mem fp s r hmem).2
    simp [this]
  have hinh : (_extract_inheritance tree fp).filter
      (fun r => r.rel_type == RelationshipType.calls) = [] := by
    apply List.filter_eq_nil_iff.mpr
    intro r hr
    have := (inherits_rel tree fp r hr).1
    simp [this]
  have hov : (_extract_overrides tree fp (buildEntityMap entities)).filter
      (fun r => r.rel_type == RelationshipType.calls) = [] := by
    apply List.filter_eq_nil_iff.mpr
    intro r hr
    have := (overrides_rel tree fp _ r hr).1
    simp [this]
  have hcont : (entities.filterMap fun e =>
      if e.node_type ≠ NodeType.fileT then
        some ({ source_id := fp, target_id := e.qualified_name,
                rel_type := RelationshipType.contains, properties := [] } : Relationship)
      else none).filter (fun r => r.rel_type == RelationshipType.calls) = [] := by
    apply List.filter_eq_nil_iff.mpr
    intro r hr
    have := (contains_rel fp entities r hr).2
    simp [this]
  have hcalls : (_extract_calls tree fp (buildEntityMap entities)).filter
      (fun r => r.rel_type == RelationshipType.calls)
      = _extract_calls tree fp (buildEntityMap entities) := by
    apply List.filter_eq_self.mpr
    intro r hr
    have := calls_rel_type tree fp _ r hr
    simp [this]
  rw [himp, hinh, hov, hcont, hcalls]
  simp only [List.nil_append, List.append_nil]
  rfl

theorem mem_insertOrReplace {α : Type} (m : List (String × α)) (k : String) (v : α)
    (p : String × α) (hp : p ∈ insertOrReplace m k v) : p ∈ m ∨ p = (k, v) := by
  unfold insertOrReplace at hp
  by_cases h : m.any (fun q => q.1 == k)
  · rw [if_pos h] at hp
    simp only [List.mem_map] at hp
    obtain ⟨q, hq, heq⟩ := hp
    by_cases h2 : q.1 == k
    · right
      rw [if_pos h2] at heq
      exact heq.symm
    · left
      rw [if_neg h2] at heq
      rwa [← heq]
  · rw [if_neg h] at hp
    rcases List.mem_append.mp hp with h1 | h1
    · exact Or.inl h1
    · exact Or.inr (by simpa using h1)

theorem mem_foldl_of_step {β α : Type} (Q : β → String × α → Prop)
    (step : List (String × α) → β → List (String × α))
    (hstep : ∀ m b p, p ∈ step m b → p ∈ m ∨ Q b p) :
    ∀ (l : List β) (init : List (String × α)) (p : String × α),
      p ∈ l.foldl step init → p ∈ init ∨ ∃ b ∈ l, Q b p := by
  intro l
  induction l with
  | nil => exact fun init p h => Or.inl h
  | cons b bs ih =>
      intro init p h
      rcases ih (step init b) p h with h1 | ⟨b', hb', hQ⟩
      · rcases hstep init b p h1 with h2 | h2
        · exact Or.inl h2
        · exact Or.inr ⟨b, List.mem_cons_self b bs, h2⟩
      · exact Or.inr ⟨b', List.mem_cons_of_mem b hb', hQ⟩

theorem classInfo_mem (tree : List PStmt) (fp : String)
    (ci : String × ClassRec × List (String × String)) (h : ci ∈ classInfo tree fp) :
    ∃ c ∈ classDefsOfWalk (walkModule tree),
      ci = (c.name, (c, methodsOf fp c.name c.body)) := by
  unfold classInfo at h
  have := mem_foldl_of_step
    (fun c p => p = (c.name, (c, methodsOf fp c.name c.body)))
    (fun m c => insertOrReplace m c.name (c, methodsOf fp c.name c.body))
    (fun m b p hp => mem_insertOrReplace m b.name _ p hp)
    (classDefsOfWalk (walkModule tree)) [] ci h
  rcases this with h1 | h1
  · simp at h1
  · exact h1

theorem methodsOf_mem (fp cname : String) (body : List PStmt) (cm : String × String)
    (h : cm ∈ methodsOf fp cname body) :
    cm.2 = fp ++ "::" ++ cname ++ "." ++ cm.1
    ∧ ∃ item ∈ body, ∃ a b r as l e, item = PStmt.functionDef cm.1 a b r as l e := by
  unfold methodsOf at h
  have := mem_foldl_of_step
    (fun item p => p.2 = fp ++ "::" ++ cname ++ "." ++ p.1
        ∧ ∃ a b r as l e, item = PStmt.functionDef p.1 a b r as l e)
    (fun m item =>
      match item with
      | PStmt.functionDef mn _ _ _ _ _ _ =>
          insertOrReplace m mn (fp ++ "::" ++ cname ++ "." ++ mn)
      | _ => m)
    ?hstep body [] cm h
  case hstep =>
    intro m b p hp
    cases b <;> try exact Or.inl hp
    case functionDef mn a bd rr asy l e =>
      rcases mem_insertOrReplace m mn _ p hp with h1 | h1
      · exact Or.inl h1
      · subst h1
        exact Or.inr ⟨rfl, a, bd, rr, asy, l, e, rfl⟩
  rcases this with h1 | ⟨item, hitem, hq, hfd⟩
  · simp at h1
  · exact ⟨hq, item, hitem, hfd⟩

theorem classRec_entity_mem (tree : List PStmt) (fp : String) (info : FileInfo)
    (st : ParserState) (c : ClassRec) (hc : c ∈ classDefsOfWalk (walkModule tree)) :
    _extract_class c.name c.bases c.body c.lineno c.end_lineno fp
      ∈ (extract_entities st tree fp info).2 := by
  simp only [classDefsOfWalk, List.mem_filterMap] at hc
  obtain ⟨p, hp, heq⟩ := hc
  obtain ⟨n0, t0⟩ := p
  simp only [extract_entities]
  apply List.mem_cons_of_mem
  apply List.mem_append_left
  apply List.mem_flatMap.mpr
  refine ⟨(n0, t0), hp, ?_⟩
  cases n0 with
  | stmtN s =>
      cases s
      case classDef name bases body lineno end_lineno =>
        simp only [Option.some.injEq] at heq
        subst heq
        exact List.mem_cons_self _ _
      all_goals simp at heq
  | moduleN b => simp at heq
  | exprN e2 => simp at heq
  | handlerN h2 => simp at heq

theorem classRec_method_mem (tree : List PStmt) (fp : String) (info : FileInfo)
    (st : ParserState) (c : ClassRec) (hc : c ∈ classDefsOfWalk (walkModule tree))
    (mn : String) (a : List String) (bd : List PStmt) (rr : Option String)
    (asy : Bool) (l : Nat) (e : Option Nat)
    (hitem : PStmt.functionDef mn a bd rr asy l e ∈ c.body) :
    _extract_function mn a bd rr asy l e fp (some c.name)
      ∈ (extract_entities st tree fp info).2 := by
  simp only [classDefsOfWalk, List.mem_filterMap] at hc
  obtain ⟨p, hp, heq⟩ := hc
  obtain ⟨n0, t0⟩ := p
  simp only [extract_entities]
  apply List.mem_cons_of_mem
  apply List.mem_append_left
  apply List.mem_flatMap.mpr
  refine ⟨(n0, t0), hp, ?_⟩
  cases n0 with
  | stmtN s =>
      cases s
      case classDef name bases body lineno end_lineno =>
        simp only [Option.some.injEq] at heq
        subst heq
        apply List.mem_cons_of_mem
        apply List.mem_filterMap.mpr
        exact ⟨PStmt.functionDef mn a bd rr asy l e, hitem, rfl⟩
      all_goals simp at heq
  | moduleN b => simp at heq
  | exprN e2 => simp at heq
  | handlerN h2 => simp at heq

/-- C3 (amended): every CONTAINS, IMPORTS, INHERITS and OVERRIDES
relationship of a parse has a `source_id` equal to the qualified name of
an entity emitted by the same parse; CALLS relationships are the
exception — their `source_id` is built from the dotted function-name
stack and, when the caller is a function nested inside another function,
names no emitted entity. -/
theorem rel_sources_are_entities (tree : List PStmt) (fp : String) (info : FileInfo)
    (st : ParserState) (r : Relationship)
    (hr : r ∈ extract_relationships tree fp (extract_entities st tree fp info).2)
    (hty : r.rel_type ≠ RelationshipType.calls) :
    ∃ e ∈ (extract_entities st tree fp info).2, r.source_id = e.qualified_name := by
  have hfile : _create_file_entity fp info ∈ (extract_entities st tree fp info).2 := by
    simp only [extract_entities]
    exact List.mem_cons_self _ _
  simp only [extract_relationships] at hr
  rcases List.mem_append.mp hr with h1 | hcontains
  · rcases List.mem_append.mp h1 with h2 | hov
    · rcases List.mem_append.mp h2 with h3 | hinh
      · rcases List.mem_append.mp h3 with himp | hcalls
        · obtain ⟨s, _, hmem⟩ := List.mem_flatMap.mp himp
          exact ⟨_, hfile, (importRelsOf_mem fp s r hmem).1⟩
        · exact absurd (calls_rel_type tree fp _ r hcalls) hty
      · obtain ⟨_, c, hc, hsrc⟩ := inherits_rel tree fp r hinh
        exact ⟨_, classRec_entity_mem tree fp info st c hc, hsrc⟩
    · obtain ⟨_, ci, hci, cm, hcm, hsrc⟩ := overrides_rel tree fp _ r hov
      obtain ⟨c, hc, rfl⟩ := classInfo_mem tree fp ci hci
      obtain ⟨hq, item, hitem, a, bd, rr, asy, l, e, hfd⟩ :=
        methodsOf_mem fp c.name c.body cm hcm
      subst hfd
      exact ⟨_, classRec_method_mem tree fp info st c hc cm.1 a bd rr asy l e hitem,
        by rw [hsrc, hq]; rfl⟩
  · exact ⟨_, hfile, (contains_rel fp _ r hcontains).1⟩

/-- C3 (witness): applying the amended source invariant to the concrete
parse of `from . import sibling` at `"p.py"` and its IMPORTS
relationship. -/
theorem rel_sources_are_entities_witness :
    ({ source_id := "p.py", target_id := "sibling",
       rel_type := RelationshipType.imports,
       properties := [("alias", PValue.noneV), ("from_module", PValue.strV ""),
         ("imported_name", PValue.strV "sibling"), ("relative_level", PValue.natV 1),
         ("line", PValue.natV 1)] } : Relationship)
        ∈ extract_relationships relImportTree "p.py"
            (extract_entities ⟨none, []⟩ relImportTree "p.py" ⟨"d41d8", 1⟩).2
    ∧ ({ source_id := "p.py", target_id := "sibling",
         rel_type := RelationshipType.imports,
         properties := [("alias", PValue.noneV), ("from_module", PValue.strV ""),
           ("imported_name", PValue.strV "sibling"), ("relative_level", PValue.natV 1),
           ("line", PValue.natV 1)] } : Relationship).rel_type ≠ RelationshipType.calls
    ∧ ∃ e ∈ (extract_entities ⟨none, []⟩ relImportTree "p.py" ⟨"d41d8", 1⟩).2,
        ({ source_id := "p.py", target_id := "sibling",
           rel_type := RelationshipType.imports,
           properties := [("alias", PValue.noneV), ("from_module", PValue.strV ""),
             ("imported_name", PValue.strV "sibling"), ("relative_level", PValue.natV 1),
             ("line", PValue.natV 1)] } : Relationship).source_id = e.qualified_name :=
  ⟨by decide, by decide,
   rel_sources_are_entities relImportTree "p.py" ⟨"d41d8", 1⟩ ⟨none, []⟩ _
     (by decide) (by decide)⟩

theorem beq_symm_false (a b : String) (h : (a == b) = false) : (b == a) = false := by
  cases hba : (b == a) with
  | false => rfl
  | true =>
      rw [eq_of_beq hba] at h
      simp at h

theorem find?_map_replace_pos {α : Type} (m : List (String × α)) (k : String) (v : α)
    (h : m.any (fun p => p.1 == k) = true) :
    (m.map (fun p => if p.1 == k then (k, v) else p)).find? (fun q => q.1 == k)
      = some (k, v) := by
  induction m with
  | nil => simp at h
  | cons p ps ih =>
      simp only [List.map_cons]
      by_cases hp : (p.1 == k) = true
      · rw [if_pos hp, List.find?_cons_of_pos _ (by simp)]
      · rw [if_neg hp, List.find?_cons_of_neg _ (by simp [hp])]
        apply ih
        have h0 : (p.1 == k) = false := by simpa using hp
        simp only [List.any_cons, h0, Bool.false_or] at h
        exact h

theorem insertOrReplace_find_self {α : Type} (m : List (String × α)) (k : String) (v : α) :
    (insertOrReplace m k v).find? (fun q => q.1 == k) = some (k, v) := by
  unfold insertOrReplace
  by_cases h : m.any (fun p => p.1 == k) = true
  · rw [if_pos h]
    exact find?_map_replace_pos m k v h
  · rw [if_neg h, List.find?_append]
    have hm : m.find? (fun q => q.1 == k) = none := by
      apply List.find?_eq_none.mpr
      intro x hx hpx
      exact h (List.any_eq_true.mpr ⟨x, hx, hpx⟩)
    rw [hm, List.find?_cons_of_pos _ (by simp)]
    rfl

theorem find?_map_replace_ne {α : Type} (m : List (String × α)) (k : String) (v : α)
    (k' : String) (h : (k' == k) = false) :
    (m.map (fun p => if p.1 == k then (k, v) else p)).find? (fun q => q.1 == k')
      = m.find? (fun q => q.1 == k') := by
  have hkk : (k == k') = false := beq_symm_false k' k h
  induction m with
  | nil => rfl
  | cons p ps ih =>
      simp only [List.map_cons]
      by_cases hp : (p.1 == k) = true
      · have hpk : p.1 = k := eq_of_beq hp
        have h2 : (p.1 == k') = false := by rw [hpk]; exact hkk
        rw [if_pos hp, List.find?_cons_of_neg _ (by simp [hkk]),
          List.find?_cons_of_neg _ (by simp [h2])]
        exact ih
      · rw [if_neg hp]
        by_cases hp' : (p.1 == k') = true
        · rw [List.find?_cons_of_pos _ (by simpa using hp'),
            List.find?_cons_of_pos _ (by simpa using hp')]
        · rw [List.find?_cons_of_neg _ (by simp [hp']),
            List.find?_cons_of_neg _ (by simp [hp'])]
          exact ih

theorem insertOrReplace_find_ne {α : Type} (m : List (String × α)) (k : String) (v : α)
    (k' : String) (h : (k' == k) = false) :
    (insertOrReplace m k v).find? (fun q => q.1 == k')
      = m.find? (fun q => q.1 == k') := by
  unfold insertOrReplace
  by_cases hany : m.any (fun p => p.1 == k) = true
  · rw [if_pos hany]
    exact find?_map_replace_ne m k v k' h
  · rw [if_neg hany, List.find?_append]
    have h2 : ([(k, v)].find? (fun q => q.1 == k')) = none := by
      rw [List.find?_cons_of_neg _ (by simp [beq_symm_false k' k h])]
      rfl
    rw [h2]
    cases m.find? (fun q => q.1 == k') <;> rfl

theorem classInfo_foldl_find (fp : String) (x : ClassRec) (l : List ClassRec) :
    ∀ (acc : List (String × (ClassRec × List (String × String)))),
      (∀ y ∈ l, y.name = x.name → y = x) →
      (x ∈ l ∨ acc.find? (fun q => q.1 == x.name)
          = some (x.name, (x, methodsOf fp x.name x.body))) →
      ((l.foldl (fun m c => insertOrReplace m c.name (c, methodsOf fp c.name c.body))
          acc).find? (fun q => q.1 == x.name))
        = some (x.name, (x, methodsOf fp x.name x.body)) := by
  induction l with
  | nil =>
      intro acc _ hbase
      rcases hbase with h | h
      · simp at h
      · simpa using h
  | cons cc cs ih =>
      intro acc hu hbase
      simp only [List.foldl_cons]
      apply ih
      · exact fun y hy hyn => hu y (List.mem_cons_of_mem _ hy) hyn
      · by_cases hname : cc.name = x.name
        · right
          have hcx : cc = x := hu cc (List.mem_cons_self _ _) hname
          subst hcx
          exact insertOrReplace_find_self acc cc.name (cc, methodsOf fp cc.name cc.body)
        · rcases hbase with hmem | hfind
          · rcases List.mem_cons.mp hmem with heq | hmem2
            · exact absurd (by rw [heq]) hname
            · exact Or.inl hmem2
          · right
            rw [insertOrReplace_find_ne _ _ _ _
              (beq_eq_false_iff_ne.mpr (fun hh => hname hh.symm))]
            exact hfind

theorem methodsOf_foldl_find (fp cname mn : String) (l : List PStmt) :
    ∀ (acc : List (String × String)),
      ((∃ a b r asy ln en, PStmt.functionDef mn a b r asy ln en ∈ l) ∨
        acc.find? (fun q => q.1 == mn) = some (mn, fp ++ "::" ++ cname ++ "." ++ mn)) →
      ((l.foldl (fun m item =>
          match item with
          | PStmt.functionDef mn2 _ _ _ _ _ _ =>
              insertOrReplace m mn2 (fp ++ "::" ++ cname ++ "." ++ mn2)
          | _ => m) acc).find? (fun q => q.1 == mn))
        = some (mn, fp ++ "::" ++ cname ++ "." ++ mn) := by
  induction l with
  | nil =>
      intro acc hbase
      rcases hbase with ⟨a, b, r, asy, ln, en, h⟩ | h
      · simp at h
      · simpa using h
  | cons item items ih =>
      intro acc hbase
      simp only [List.foldl_cons]
      apply ih
      cases item
      case functionDef mn2 a2 b2 r2 asy2 ln2 en2 =>
        by_cases hname : mn2 = mn
        · subst hname
          right
          exact insertOrReplace_find_self acc mn2 (fp ++ "::" ++ cname ++ "." ++ mn2)
        · rcases hbase with ⟨a, b, r, asy, ln, en, hmem⟩ | hfind
          · rcases List.mem_cons.mp hmem with heq | hmem2
            · injection heq with h1
              exact absurd h1.symm hname
            · exact Or.inl ⟨a, b, r, asy, ln, en, hmem2⟩
          · right
            rw [insertOrReplace_find_ne _ _ _ _
              (beq_eq_false_iff_ne.mpr (fun hh => hname hh.symm))]
            exact hfind
      all_goals
        rcases hbase with ⟨a, b, r, asy, ln, en, hmem⟩ | hfind
        · rcases List.mem_cons.mp hmem with heq | hmem2
          · cases heq
          · exact Or.inl ⟨a, b, r, asy, ln, en, hmem2⟩
        · exact Or.inr hfind

theorem methodsOf_find_of_mem (fp cname mn : String) (a : List String) (b : List PStmt)
    (r : Option String) (asy : Bool) (ln : Nat) (en : Option Nat) (body : List PStmt)
    (h : PStmt.functionDef mn a b r asy ln en ∈ body) :
    (methodsOf fp cname body).find? (fun q => q.1 == mn)
      = some (mn, fp ++ "::" ++ cname ++ "." ++ mn) := by
  unfold methodsOf
  exact methodsOf_foldl_find fp cname mn body [] (Or.inl ⟨a, b, r, asy, ln, en, h⟩)

theorem classInfo_find_of_unique (tree : List PStmt) (fp : String) (x : ClassRec)
    (hx : (classDefsOfWalk (walkModule tree)).filter (fun y => y.name == x.name) = [x]) :
    (classInfo tree fp).find? (fun q => q.1 == x.name)
      = some (x.name, (x, methodsOf fp x.name x.body)) := by
  have hmem : x ∈ classDefsOfWalk (walkModule tree) := by
    have h1 : x ∈ (classDefsOfWalk (walkModule tree)).filter (fun y => y.name == x.name) := by
      rw [hx]
      exact List.mem_cons_self _ _
    exact List.mem_of_mem_filter h1
  have hu : ∀ y ∈ classDefsOfWalk (walkModule tree), y.name = x.name → y = x := by
    intro y hy hyn
    have h1 : y ∈ (classDefsOfWalk (walkModule tree)).filter (fun z => z.name == x.name) :=
      List.mem_filter.mpr ⟨hy, by simp [hyn]⟩
    rw [hx] at h1
    simpa using h1
  unfold classInfo
  exact classInfo_foldl_find fp x (classDefsOfWalk (walkModule tree)) [] hu (Or.inl hmem)

/-- C8: for every pair of classes defined in the same file where one
inherits from the other — the child `c` and parent `p` are the classes of
those names defined in the file, and a base expression of `c` reduces to
`p`'s name — and for every method name defined in both (excluding names
that both start and end with a double underscore), the parse emits an
OVERRIDES relationship from the child's method qualified name to the
parent's, and an INHERITS relationship from the child to the parent's
file-qualified name. -/
theorem overrides_for_shared_method (tree : List PStmt) (fp : String) (info : FileInfo)
    (st : ParserState) (c p : ClassRec) (base : PExpr) (mn : String)
    (ca : List String) (cb : List PStmt) (cr : Option String) (casy : Bool)
    (cl : Nat) (ce : Option Nat)
    (pa : List String) (pb : List PStmt) (pr : Option String) (pasy : Bool)
    (pl : Nat) (pe : Option Nat)
    (hc : (classDefsOfWalk (walkModule tree)).filter (fun y => y.name == c.name) = [c])
    (hp : (classDefsOfWalk (walkModule tree)).filter (fun y => y.name == p.name) = [p])
    (hbase : base ∈ c.bases)
    (hbn : _get_base_class_name base = some p.name)
    (hmc : PStmt.functionDef mn ca cb cr casy cl ce ∈ c.body)
    (hmp : PStmt.functionDef mn pa pb pr pasy pl pe ∈ p.body)
    (hnd : (mn.startsWith "__" && mn.endsWith "__") = false) :
    ({ source_id := fp ++ "::" ++ c.name ++ "." ++ mn
       target_id := fp ++ "::" ++ p.name ++ "." ++ mn
       rel_type := RelationshipType.overrides
       properties := [("method_name", PValue.strV mn), ("child_class", PValue.strV c.name),
         ("parent_class", PValue.strV p.name)] } : Relationship)
      ∈ extract_relationships tree fp (extract_entities st tree fp info).2
    ∧ ({ source_id := fp ++ "::" ++ c.name
         target_id := fp ++ "::" ++ p.name
         rel_type := RelationshipType.inherits
         properties := [("base_class", PValue.strV p.name),
           ("line", PValue.natV c.lineno)] } : Relationship)
        ∈ extract_relationships tree fp (extract_entities st tree fp info).2 := by
  have hcmem : c ∈ classDefsOfWalk (walkModule tree) := by
    have h1 : c ∈ (classDefsOfWalk (walkModule tree)).filter (fun y => y.name == c.name) := by
      rw [hc]
      exact List.mem_cons_self _ _
    exact List.mem_of_mem_filter h1
  have hpmem : p ∈ classDefsOfWalk (walkModule tree) := by
    have h1 : p ∈ (classDefsOfWalk (walkModule tree)).filter (fun y => y.name == p.name) := by
      rw [hp]
      exact List.mem_cons_self _ _
    exact List.mem_of_mem_filter h1
  have hciF := classInfo_find_of_unique tree fp c hc
  have hpiF := classInfo_find_of_unique tree fp p hp
  have hciMem : (c.name, (c, methodsOf fp c.name c.body)) ∈ classInfo tree fp :=
    List.mem_of_find?_eq_some hciF
  have hcmF := methodsOf_find_of_mem fp c.name mn ca cb cr casy cl ce c.body hmc
  have hcmMem : (mn, fp ++ "::" ++ c.name ++ "." ++ mn) ∈ methodsOf fp c.name c.body :=
    List.mem_of_find?_eq_some hcmF
  have hpmF := methodsOf_find_of_mem fp p.name mn pa pb pr pasy pl pe p.body hmp
  constructor
  · have hov : ({ source_id := fp ++ "::" ++ c.name ++ "." ++ mn,
                  target_id := fp ++ "::" ++ p.name ++ "." ++ mn,
                  rel_type := RelationshipType.overrides,
                  properties := [("method_name", PValue.strV mn),
                    ("child_class", PValue.strV c.name),
                    ("parent_class", PValue.strV p.name)] } : Relationship)
        ∈ _extract_overrides tree fp
            (buildEntityMap (extract_entities st tree fp info).2) := by
      simp only [_extract_overrides]
      apply List.mem_flatMap.mpr
      refine ⟨(c.name, (c, methodsOf fp c.name c.body)), hciMem, ?_⟩
      apply List.mem_flatMap.mpr
      refine ⟨base, hbase, ?_⟩
      simp only [hbn, hpiF]
      apply List.mem_flatMap.mpr
      refine ⟨(mn, fp ++ "::" ++ c.name ++ "." ++ mn), hcmMem, ?_⟩
      simp only [hpmF, hnd]
      simp
    simp only [extract_relationships]
    exact List.mem_append_left _ (List.mem_append_right _ hov)
  · have hin : ({ source_id := fp ++ "::" ++ c.name,
                  target_id := fp ++ "::" ++ p.name,
                  rel_type := RelationshipType.inherits,
                  properties := [("base_class", PValue.strV p.name),
                    ("line", PValue.natV c.lineno)] } : Relationship)
        ∈ _extract_inheritance tree fp := by
      simp only [_extract_inheritance]
      apply List.mem_flatMap.mpr
      refine ⟨c, hcmem, ?_⟩
      apply List.mem_filterMap.mpr
      refine ⟨base, hbase, ?_⟩
      have hcont : ((classDefsOfWalk (walkModule tree)).map (fun c => c.name)).contains
          p.name = true := by
        simpa [List.contains] using List.mem_map.mpr ⟨p, hpmem, rfl⟩
      simp only [hbn, hcont]
      simp
    simp only [extract_relationships]
    exact List.mem_append_left _
      (List.mem_append_left _ (List.mem_append_right _ hin))

/-- C8 (witness): Example A — `"m.py"` with `class A: def f(self): pass`
and `class B(A): def f(self): pass` — where `A` and `B` are the unique
classes of their names, `f` is defined in both and is not dunder-style:
the parse yields entities `m.py`, `m.py::A`, `m.py::A.f`, `m.py::B`,
`m.py::B.f`, an INHERITS relationship `m.py::B -> m.py::A` and an
OVERRIDES relationship `m.py::B.f -> m.py::A.f`. -/
theorem overrides_for_shared_method_witness :
    ((classDefsOfWalk (walkModule exampleClassTree)).filter (fun y => y.name == "B")
        = [⟨"B", [PExpr.nameE "A"],
            [PStmt.functionDef "f" ["self"] [PStmt.passStmt] none false 4 (some 4)],
            3, some 4⟩])
    ∧ ((classDefsOfWalk (walkModule exampleClassTree)).filter (fun y => y.name == "A")
        = [⟨"A", [],
            [PStmt.functionDef "f" ["self"] [PStmt.passStmt] none false 2 (some 2)],
            1, some 2⟩])
    ∧ ("f".startsWith "__" && "f".endsWith "__") = false
    ∧ ((extract_entities ⟨none, []⟩ exampleClassTree "m.py" ⟨"d41d8", 4⟩).2.map
        (fun e => e.qualified_name))
        = ["m.py", "m.py::A", "m.py::A.f", "m.py::B", "m.py::B.f"]
    ∧ ({ source_id := "m.py::B.f", target_id := "m.py::A.f",
         rel_type := RelationshipType.overrides,
         properties := [("method_name", PValue.strV "f"), ("child_class", PValue.strV "B"),
           ("parent_class", PValue.strV "A")] } : Relationship)
        ∈ extract_relationships exampleClassTree "m.py"
            (extract_entities ⟨none, []⟩ exampleClassTree "m.py" ⟨"d41d8", 4⟩).2
    ∧ ({ source_id := "m.py::B", target_id := "m.py::A",
         rel_type := RelationshipType.inherits,
         properties := [("base_class", PValue.strV "A"),
           ("line", PValue.natV 3)] } : Relationship)
        ∈ extract_relationships exampleClassTree "m.py"
            (extract_entities ⟨none, []⟩ exampleClassTree "m.py" ⟨"d41d8", 4⟩).2 := by
  have h := overrides_for_shared_method exampleClassTree "m.py" ⟨"d41d8", 4⟩ ⟨none, []⟩
    ⟨"B", [PExpr.nameE "A"],
      [PStmt.functionDef "f" ["self"] [PStmt.passStmt] none false 4 (some 4)], 3, some 4⟩
    ⟨"A", [],
      [PStmt.functionDef "f" ["self"] [PStmt.passStmt] none false 2 (some 2)], 1, some 2⟩
    (PExpr.nameE "A") "f"
    ["self"] [PStmt.passStmt] none false 4 (some 4)
    ["self"] [PStmt.passStmt] none false 2 (some 2)
    rfl rfl (List.mem_singleton.mpr rfl) rfl (List.mem_singleton.mpr rfl)
    (List.mem_singleton.mpr rfl) rfl
  exact ⟨rfl, rfl, rfl, by decide, h.1, h.2⟩
